import Mathlib

/-!
Verification of the trial-generation and response-scoring cores of the two
change-detection scripts: the discrete variant
(change_detection_modified_Qian.py, suffix D) and the continuous-report
variant (continous_change_detection.py, suffix C).

Randomness model.  Python's random.randint lo hi returns a uniform draw from
the inclusive range [lo, hi]; it is embedded as randint, which reads one value
from an abstract entropy stream g : Nat -> Nat at a cursor position k and maps
it into the range.  random.shuffle is embedded as shuffle, a selection shuffle
driven by the same stream; its set of possible outcomes is exactly the set of
permutations of the input, which is also the support of the Fisher-Yates
shuffle Python uses.  Statements about "a generated trial" are quantified over
all entropy streams, so they cover every possible run.

Numbers.  The RGB components written in the scripts are exact decimal
literals; they are embedded as rationals.  Screen geometry (stimulus ring,
color wheel, masks) uses real arithmetic in place of the scripts' float
arithmetic.
-/

namespace ChangeDetection

/-- An RGB triple in PsychoPy's [-1, 1] color space. -/
abbrev Color := ℚ × ℚ × ℚ

/-- First eight-color palette of the discrete variant (TRIAL_colorS1,
lines 49-56): Black, Blue, Green, Cyan, Red, Purple, Yellow, White. -/
def TRIAL_colorS1 : List Color :=
  [(-1, -1, -1), (-1, -1, 1), (-1, 1, -1), (-1, 1, 1),
   (1, -1, -1), (1, -1, 1), (1, 1, -1), (1, 1, 1)]

/-- Second eight-color palette of the discrete variant (TRIAL_colorS2,
lines 57-64); the same eight colors, listed again in the source. -/
def TRIAL_colorS2 : List Color :=
  [(-1, -1, -1), (-1, -1, 1), (-1, 1, -1), (-1, 1, 1),
   (1, -1, -1), (1, -1, 1), (1, 1, -1), (1, 1, 1)]

/-- Palette of the continuous variant (TRIAL_colorS, lines 73-80): Black,
Blue, Green, Cyan, Red, Purple, Yellow, Orange.  The Orange middle component
is the source's literal 0.296, written as mkRat 37 125 so that it reduces
inside the kernel (lemma orange_mid_eq checks the value). -/
def TRIAL_colorS_Cont : List Color :=
  [(-1, -1, -1), (-1, -1, 1), (-1, 1, -1), (-1, 1, 1),
   (1, -1, -1), (1, -1, 1), (1, 1, -1), (1, mkRat 37 125, -1)]

/-- Python random.randint lo hi (both ends inclusive): one stream value mapped
into the range.  Faithful to the support of the library call whenever
lo <= hi, which holds at every call the scripts can reach with a valid
trial type. -/
def randint (g : Nat → Nat) (k lo hi : Nat) : Nat :=
  lo + g k % (hi + 1 - lo)

/-- Selection shuffle: at each step one stream value selects which remaining
element comes next.  The fuel argument is initialised to the list length, so
it never runs out.  Returns the shuffled list and the advanced cursor. -/
def shuffleGo {α : Type*} (g : Nat → Nat) : Nat → Nat → List α → List α × Nat
  | 0, k, l => (l, k)
  | _ + 1, k, [] => ([], k)
  | fuel + 1, k, a :: rest =>
    let l := a :: rest
    let i := g k % l.length
    let r := shuffleGo g fuel (k + 1) (l.eraseIdx i)
    (l.getD i a :: r.1, r.2)

/-- Model of Python random.shuffle: consumes one stream value per element and
can produce exactly the permutations of its input. -/
def shuffle {α : Type*} (g : Nat → Nat) (k : Nat) (l : List α) : List α × Nat :=
  shuffleGo g l.length k l

/-- A trial record, as built by class Trial in either script.  The source
stores stimulus positions as coordinate pairs; here the field stim_pos_slots
stores the indices of the twelve ring slots, and Trial.positions below maps
them to the coordinate pairs the source stores (the two presentations agree
because shuffling commutes with the slot-to-coordinate map; see
setPositions_coords). -/
structure Trial where
  trial_num : Nat
  rep_num : Nat
  num_stimuli : Nat
  stim_pos_slots : List Nat
  change : Bool
  stim_colors : List Color
  probe_colors : List Color
deriving DecidableEq

instance : Inhabited Trial := ⟨⟨0, 0, 0, [], false, [], []⟩⟩

/-- Load lookup of the discrete variant's Trial.__init__ (lines 142-153);
an unlisted trial number leaves the initial value 0. -/
def numStimuliD (trial_num : Nat) : Nat :=
  if trial_num = 0 then 1
  else if trial_num = 1 then 2
  else if trial_num = 2 then 3
  else if trial_num = 3 then 4
  else if trial_num = 4 then 8
  else if trial_num = 5 then 12
  else 0

/-- Load lookup of the continuous variant's Trial.__init__ (lines 147-152);
an unlisted trial number leaves the initial value 0. -/
def numStimuliC (trial_num : Nat) : Nat :=
  if trial_num = 0 then 2
  else if trial_num = 1 then 4
  else if trial_num = 2 then 6
  else 0

/-- Trial.__init__ of the discrete variant. -/
def Trial.initD (trial_num rep_num : Nat) : Trial :=
  { trial_num := trial_num, rep_num := rep_num,
    num_stimuli := numStimuliD trial_num,
    stim_pos_slots := [], change := false,
    stim_colors := [], probe_colors := [] }

/-- Trial.__init__ of the continuous variant. -/
def Trial.initC (trial_num rep_num : Nat) : Trial :=
  { trial_num := trial_num, rep_num := rep_num,
    num_stimuli := numStimuliC trial_num,
    stim_pos_slots := [], change := false,
    stim_colors := [], probe_colors := [] }

/-- Trial.set_positions (identical in both variants): build the twelve ring
slots, shuffle them, keep the first num_stimuli.  The source shuffles the
list of coordinate pairs; this embedding shuffles the slot indices, which
yields the same coordinates (lemma setPositions_coords). -/
def setPositions (g : Nat → Nat) (k : Nat) (t : Trial) : Trial × Nat :=
  let r := shuffle g k (List.range 12)
  ({ t with stim_pos_slots := r.1.take t.num_stimuli }, r.2)

/-- Trial.set_colors of the discrete variant (lines 174-198).  Both global
palettes are shuffled in place and concatenated into a 16-entry pool; the
stimulus and probe lists start as the whole pool; on an even repetition one
probe entry at index randint 0 (n-1) is overwritten with the pool entry at
index randint n 13; finally both lists are cut to num_stimuli.  Returns the
updated trial, the two shuffled palettes (the new global palette state), and
the advanced cursor. -/
def setColorsD (g : Nat → Nat) (k : Nat) (p1 p2 : List Color) (t : Trial) :
    (Trial × List Color × List Color) × Nat :=
  let r1 := shuffle g k p1
  let r2 := shuffle g r1.2 p2
  let pool := r1.1 ++ r2.1
  if t.rep_num % 2 = 0 then
    let i := randint g r2.2 0 (t.num_stimuli - 1)
    let j := randint g (r2.2 + 1) t.num_stimuli 13
    (({ t with change := true,
               stim_colors := pool.take t.num_stimuli,
               probe_colors := (pool.set i (pool.getD j default)).take t.num_stimuli },
      r1.1, r2.1), r2.2 + 2)
  else
    (({ t with stim_colors := pool.take t.num_stimuli,
               probe_colors := pool.take t.num_stimuli },
      r1.1, r2.1), r2.2)

/-- Trial.set_colors of the continuous variant (lines 172-196): one global
eight-color palette, replacement source index randint n 7. -/
def setColorsC (g : Nat → Nat) (k : Nat) (p : List Color) (t : Trial) :
    (Trial × List Color) × Nat :=
  let r := shuffle g k p
  let pool := r.1
  if t.rep_num % 2 = 0 then
    let i := randint g r.2 0 (t.num_stimuli - 1)
    let j := randint g (r.2 + 1) t.num_stimuli 7
    (({ t with change := true,
               stim_colors := pool.take t.num_stimuli,
               probe_colors := (pool.set i (pool.getD j default)).take t.num_stimuli },
      pool), r.2 + 2)
  else
    (({ t with stim_colors := pool.take t.num_stimuli,
               probe_colors := pool.take t.num_stimuli },
      pool), r.2)

/-- One iteration of the generator loop of the discrete variant: construct
the trial, set its positions, set its colors. -/
def buildTrialD (g : Nat → Nat) (k : Nat) (p1 p2 : List Color) (tr rep : Nat) :
    (Trial × List Color × List Color) × Nat :=
  let s := setPositions g k (Trial.initD tr rep)
  setColorsD g s.2 p1 p2 s.1

/-- One iteration of the generator loop of the continuous variant. -/
def buildTrialC (g : Nat → Nat) (k : Nat) (p : List Color) (tr rep : Nat) :
    (Trial × List Color) × Nat :=
  let s := setPositions g k (Trial.initC tr rep)
  setColorsC g s.2 p s.1

/-- The (trial type, repetition) pairs in generation order: for rep in
range numReps, for tr in range numType. -/
def trialPairs (numReps numType : Nat) : List (Nat × Nat) :=
  (List.range numReps).flatMap fun rep => (List.range numType).map fun tr => (tr, rep)

/-- Generator loop of the discrete variant, threading the shuffled global
palettes and the stream cursor from one trial to the next. -/
def genTrialsD (g : Nat → Nat) :
    List (Nat × Nat) → List Color → List Color → Nat → List Trial × Nat
  | [], _, _, k => ([], k)
  | pr :: rest, p1, p2, k =>
    let b := buildTrialD g k p1 p2 pr.1 pr.2
    let r := genTrialsD g rest b.1.2.1 b.1.2.2 b.2
    (b.1.1 :: r.1, r.2)

/-- Generator loop of the continuous variant. -/
def genTrialsC (g : Nat → Nat) :
    List (Nat × Nat) → List Color → Nat → List Trial × Nat
  | [], _, k => ([], k)
  | pr :: rest, p, k =>
    let b := buildTrialC g k p pr.1 pr.2
    let r := genTrialsC g rest b.1.2 b.2
    (b.1.1 :: r.1, r.2)

/-- NUM_TYPE of the discrete variant. -/
def NUM_TYPE_D : Nat := 6

/-- NUM_TYPE of the continuous variant. -/
def NUM_TYPE_C : Nat := 3

/-- NUM_REPS after setup_subject: the test subject number 999 shortens the
experiment to 2 repetitions, otherwise the constant 50 is kept. -/
def NUM_REPS_of (subj : Nat) : Nat := if subj = 999 then 2 else 50

/-- The trial list of set_trials (discrete variant) before the final
shuffle, paired with the stream cursor reached. -/
def setTrialsPreD (g : Nat → Nat) (numReps : Nat) : List Trial × Nat :=
  genTrialsD g (trialPairs numReps NUM_TYPE_D) TRIAL_colorS1 TRIAL_colorS2 0

/-- set_trials of the discrete variant (lines 274-293): build all trials,
then shuffle the list once. -/
def setTrialsD (g : Nat → Nat) (numReps : Nat) : List Trial :=
  (shuffle g (setTrialsPreD g numReps).2 (setTrialsPreD g numReps).1).1

/-- The trial list of set_trials (continuous variant) before the final
shuffle. -/
def setTrialsPreC (g : Nat → Nat) (numReps : Nat) : List Trial × Nat :=
  genTrialsC g (trialPairs numReps NUM_TYPE_C) TRIAL_colorS_Cont 0

/-- set_trials of the continuous variant (lines 273-292). -/
def setTrialsC (g : Nat → Nat) (numReps : Nat) : List Trial :=
  (shuffle g (setTrialsPreC g numReps).2 (setTrialsPreC g numReps).1).1

/-- random.seed (int (subj_num)) followed by set_trials: the eventual entropy
stream is a function of the seed alone (prng models the seeded Mersenne
Twister abstractly as a seed-determined stream). -/
def setTrialsSeededD (prng : Nat → Nat → Nat) (seed numReps : Nat) : List Trial :=
  setTrialsD (prng seed) numReps

/-- Seeded generation for the continuous variant. -/
def setTrialsSeededC (prng : Nat → Nat → Nat) (seed numReps : Nat) : List Trial :=
  setTrialsC (prng seed) numReps

/-- The all-zeros entropy stream: every shuffle outcome is the identity
permutation and every randint returns its lower bound.  Used to evaluate the
generator on concrete runs. -/
def zeroG : Nat → Nat := fun _ => 0

/-- The first trial of the discrete generator run on the all-zeros stream
(trial type 0, repetition 0): one stimulus at slot 0, sample Black, probe
Blue. -/
def tD0 : Trial :=
  ⟨0, 0, 1, [0], true, [(-1, -1, -1)], [(-1, -1, 1)]⟩

/-- The first trial of the continuous generator run on the all-zeros stream
(trial type 0, repetition 0): two stimuli, samples Black and Blue, probes
Green and Blue. -/
def tC0 : Trial :=
  ⟨0, 0, 2, [0, 1], true, [(-1, -1, -1), (-1, -1, 1)], [(-1, 1, -1), (-1, -1, 1)]⟩

/-- A trial agreeing with tC0 on the sample colors but with different
probe colors and change flag, to exercise non-influence of those fields on
the runtime probe. -/
def tC0var : Trial :=
  ⟨0, 0, 2, [0, 1], false, [(-1, -1, -1), (-1, -1, 1)], []⟩

/-- math.radians: degrees to radians. -/
noncomputable def radians (x : ℝ) : ℝ := x * Real.pi / 180

/-- Angle of ring slot k in set_positions: math.radians (360 / 12 * pos). -/
noncomputable def stimAngle (k : Nat) : ℝ := radians (360 / 12 * (k : ℝ))

/-- Coordinates of ring slot k: (cos angle * STIM_POS_RADIUS,
sin angle * STIM_POS_RADIUS) with STIM_POS_RADIUS = 4 in both variants. -/
noncomputable def basePos (k : Nat) : ℝ × ℝ :=
  (Real.cos (stimAngle k) * 4, Real.sin (stimAngle k) * 4)

/-- The coordinate list self.stim_positions the source stores: the stored
slot indices mapped onto the ring. -/
noncomputable def Trial.positions (t : Trial) : List (ℝ × ℝ) :=
  t.stim_pos_slots.map basePos

/-- Angle of color-wheel point i: the i-th entry of
np.linspace (0, 360, 360, endpoint=False) is i degrees, times pi / 180. -/
noncomputable def wheelTheta (i : Nat) : ℝ := radians i

/-- Coordinates of color-wheel point i (lines 531-533):
(loop_radius * cos theta, loop_radius * sin theta) with loop_radius = 8. -/
noncomputable def wheelPos (i : Nat) : ℝ × ℝ :=
  (8 * Real.cos (wheelTheta i), 8 * Real.sin (wheelTheta i))

/-- Auxiliary chroma component of the HSV-to-RGB conversion at saturation
and value 1: x = 1 - abs ((h / 60) mod 2 - 1) for hue h = i degrees. -/
def hueX (i : Nat) : ℚ :=
  if (i / 60) % 2 = 0 then ((i % 60 : Nat) : ℚ) / 60
  else 1 - ((i % 60 : Nat) : ℚ) / 60

/-- Modelled from psychopy.misc.hsv2rgb, which is outside this repository:
the RGB triple of color-wheel point i, i.e. the standard hue-sector
conversion of hue i degrees at saturation = value = 1, rescaled from
[0, 1] to PsychoPy's [-1, 1] (rgb = misc.hsv2rgb (hsv), lines 70-72). -/
def wheelRGB (i : Nat) : Color :=
  let x := hueX i
  let rgb : ℚ × ℚ × ℚ :=
    if i / 60 = 0 then (1, x, 0)
    else if i / 60 = 1 then (x, 1, 0)
    else if i / 60 = 2 then (0, 1, x)
    else if i / 60 = 3 then (0, x, 1)
    else if i / 60 = 4 then (x, 0, 1)
    else (1, 0, x)
  (2 * rgb.1 - 1, 2 * rgb.2.1 - 1, 2 * rgb.2.2 - 1)

/-- Euclidean distance between two screen points
(sklearn euclidean_distances on 2-vectors). -/
noncomputable def eucDist (p q : ℝ × ℝ) : ℝ :=
  Real.sqrt ((p.1 - q.1) ^ 2 + (p.2 - q.2) ^ 2)

open Classical in
/-- np.argmin over the first n values of f: the first index attaining the
minimum, 0 if n = 0. -/
noncomputable def argminIdx (f : Nat → ℝ) (n : Nat) : Nat :=
  if h : ∃ i, i < n ∧ ∀ j, j < n → f i ≤ f j then Nat.find h else 0

/-- loc = np.argmin (euclidean_distances (stim.xys, [mousePos])) (line 581):
the wheel point nearest to the pointer. -/
noncomputable def reportedLoc (p : ℝ × ℝ) : Nat :=
  argminIdx (fun i => eucDist (wheelPos i) p) 360

/-- judgement_Error = euclidean_distances ([sub_resp_Color], [probe_Color])
(line 602): Euclidean distance between two RGB triples. -/
noncomputable def judgementError (c1 c2 : Color) : ℝ :=
  Real.sqrt (((c1.1 - c2.1 : ℚ) : ℝ) ^ 2 + ((c1.2.1 - c2.2.1 : ℚ) : ℝ) ^ 2 +
    ((c1.2.2 - c2.2.2 : ℚ) : ℝ) ^ 2)

/-- The pointer lies in the annulus between the two circular masks centred
on the wheel: not inside mask1 (radius loop_radius - 0.5 = 7.5) and inside
mask2 (radius loop_radius + 0.5 = 8.5); the PsychoPy polygon containment
test on a circle stimulus is modelled as the ideal disk test
(not mask1.contains (mouse) and mask2.contains (mouse), line 584). -/
def inAnnulus (p : ℝ × ℝ) : Prop :=
  ¬ eucDist p (0, 0) < 7.5 ∧ eucDist p (0, 0) < 8.5

open Classical in
/-- The fill color the response loop displays for the probed square at
pointer position p (lines 584-587): the nearest wheel color while the
pointer is inside the annulus, nothing otherwise. -/
noncomputable def displayFill (p : ℝ × ℝ) : Option Color :=
  if inAnnulus p then some (wheelRGB (reportedLoc p)) else none

/-- The response polling loop (lines 578-606), one frame per step: at frame
t the pointer is at mp t; loc is recomputed from the pointer; after the
flip the buttons are read, and if any is pressed the reported color
rgb [loc] is frozen and the loop exits, returning the color and the frame
index; otherwise the loop polls the next frame.  Fuel bounds the number of
frames observed. -/
noncomputable def respLoopGo (mp : Nat → ℝ × ℝ) (bt : Nat → Bool) :
    Nat → Nat → Option (Color × Nat)
  | 0, _ => none
  | fuel + 1, t =>
    if bt t then some (wheelRGB (reportedLoc (mp t)), t)
    else respLoopGo mp bt fuel (t + 1)

/-- probe = random.sample (np.arange (0, trial.num_stimuli), 1) [0]
(line 548): a uniform draw from [0, num_stimuli), embedded with the same
stream model as randint. -/
def probeIdx (g : Nat → Nat) (k n : Nat) : Nat := g k % n

/-- probe_Color = trial.stim_colors [target] at target = probe (line 551). -/
def probeColorRT (t : Trial) (i : Nat) : Color := t.stim_colors.getD i default

/-! ### Properties of the shuffle model -/

lemma perm_getD_cons_eraseIdx {α : Type*} :
    ∀ (l : List α) (i : Nat) (d : α), i < l.length →
      List.Perm l (l.getD i d :: l.eraseIdx i)
  | [], i, d, h => absurd h (by simp)
  | a :: rest, 0, d, _ => by simp
  | a :: rest, i + 1, d, h => by
    have hi : i < rest.length := by simpa using Nat.lt_of_succ_lt_succ h
    have h1 : List.Perm (a :: rest) (a :: (rest.getD i d :: rest.eraseIdx i)) :=
      (perm_getD_cons_eraseIdx rest i d hi).cons a
    have h2 : List.Perm (a :: rest.getD i d :: rest.eraseIdx i)
        (rest.getD i d :: a :: rest.eraseIdx i) := List.Perm.swap _ _ _
    simpa using h1.trans h2

lemma shuffleGo_fst_perm {α : Type*} (g : Nat → Nat) :
    ∀ (fuel k : Nat) (l : List α), List.Perm (shuffleGo g fuel k l).1 l
  | 0, _, _ => List.Perm.refl _
  | _ + 1, _, [] => List.Perm.refl _
  | fuel + 1, k, a :: rest => by
    have hlen : g k % (a :: rest).length < (a :: rest).length :=
      Nat.mod_lt _ (Nat.succ_pos _)
    have ih := shuffleGo_fst_perm g fuel (k + 1)
      ((a :: rest).eraseIdx (g k % (a :: rest).length))
    exact (ih.cons _).trans (perm_getD_cons_eraseIdx _ _ a hlen).symm

lemma shuffle_fst_perm {α : Type*} (g : Nat → Nat) (k : Nat) (l : List α) :
    List.Perm (shuffle g k l).1 l :=
  shuffleGo_fst_perm g _ _ _

lemma shuffleGo_snd {α : Type*} (g : Nat → Nat) :
    ∀ (fuel k : Nat) (l : List α), (shuffleGo g fuel k l).2 = k + min fuel l.length
  | 0, k, l => by simp [shuffleGo]
  | _ + 1, k, [] => by simp [shuffleGo]
  | fuel + 1, k, a :: rest => by
    have hlen : g k % (a :: rest).length < (a :: rest).length :=
      Nat.mod_lt _ (Nat.succ_pos _)
    have hle : ((a :: rest).eraseIdx (g k % (a :: rest).length)).length = rest.length := by
      have h := List.length_eraseIdx_add_one hlen
      simpa using h
    have ih := shuffleGo_snd g fuel (k + 1)
      ((a :: rest).eraseIdx (g k % (a :: rest).length))
    show (shuffleGo g fuel (k + 1) _).2 = _
    rw [ih, hle]
    simp only [List.length_cons]
    omega

lemma shuffle_snd {α : Type*} (g : Nat → Nat) (k : Nat) (l : List α) :
    (shuffle g k l).2 = k + l.length := by
  rw [shuffle, shuffleGo_snd]
  simp

lemma eraseIdx_map {α β : Type*} (f : α → β) :
    ∀ (l : List α) (i : Nat), (l.map f).eraseIdx i = (l.eraseIdx i).map f
  | [], _ => rfl
  | _ :: _, 0 => rfl
  | a :: rest, i + 1 => by
    simpa using eraseIdx_map f rest i

lemma shuffleGo_map {α β : Type*} (g : Nat → Nat) (f : α → β) :
    ∀ (fuel k : Nat) (l : List α),
      shuffleGo g fuel k (l.map f) =
        (((shuffleGo g fuel k l).1).map f, (shuffleGo g fuel k l).2)
  | 0, _, _ => rfl
  | _ + 1, _, [] => rfl
  | fuel + 1, k, a :: rest => by
    have ih := shuffleGo_map g f fuel (k + 1)
      ((a :: rest).eraseIdx (g k % (a :: rest).length))
    show ((List.map f (a :: rest)).getD (g k % (List.map f (a :: rest)).length) (f a) ::
        (shuffleGo g fuel (k + 1)
          ((List.map f (a :: rest)).eraseIdx (g k % (List.map f (a :: rest)).length))).1,
        (shuffleGo g fuel (k + 1)
          ((List.map f (a :: rest)).eraseIdx (g k % (List.map f (a :: rest)).length))).2) = _
    simp only [List.length_map]
    rw [List.getD_map, eraseIdx_map, ih]
    simp [shuffleGo]

lemma shuffle_map {α β : Type*} (g : Nat → Nat) (k : Nat) (f : α → β) (l : List α) :
    shuffle g k (l.map f) = (((shuffle g k l).1).map f, (shuffle g k l).2) := by
  rw [shuffle, shuffle, List.length_map]
  exact shuffleGo_map g f _ _ _

/-- The embedding of set_positions over slot indices produces exactly the
coordinate list the source computes by shuffling the coordinate pairs
directly. -/
lemma setPositions_coords (g : Nat → Nat) (k : Nat) (t : Trial) :
    ((setPositions g k t).1).positions =
      ((shuffle g k ((List.range 12).map basePos)).1).take t.num_stimuli := by
  rw [shuffle_map]
  simp [setPositions, Trial.positions, List.map_take]

/-! ### Properties of the trial generators -/

lemma trialPairs_mem {numReps numType : Nat} {pr : Nat × Nat} :
    pr ∈ trialPairs numReps numType ↔ pr.1 < numType ∧ pr.2 < numReps := by
  obtain ⟨tr, rep⟩ := pr
  simp only [trialPairs, List.mem_flatMap, List.mem_map, List.mem_range, Prod.mk.injEq]
  constructor
  · rintro ⟨rep', hrep', tr', htr', rfl, rfl⟩
    exact ⟨htr', hrep'⟩
  · rintro ⟨h1, h2⟩
    exact ⟨rep, h2, tr, h1, rfl, rfl⟩

lemma trialPairs_length (numReps numType : Nat) :
    (trialPairs numReps numType).length = numReps * numType := by
  induction numReps with
  | zero => simp [trialPairs]
  | succ n ih =>
    rw [trialPairs, List.range_succ, List.flatMap_append]
    rw [trialPairs] at ih
    simp [ih, Nat.succ_mul]

lemma buildTrialD_ids (g : Nat → Nat) (k : Nat) (p1 p2 : List Color) (tr rep : Nat) :
    (buildTrialD g k p1 p2 tr rep).1.1.trial_num = tr ∧
    (buildTrialD g k p1 p2 tr rep).1.1.rep_num = rep ∧
    (buildTrialD g k p1 p2 tr rep).1.1.num_stimuli = numStimuliD tr := by
  unfold buildTrialD setColorsD setPositions Trial.initD
  dsimp only
  split <;> simp

lemma buildTrialC_ids (g : Nat → Nat) (k : Nat) (p : List Color) (tr rep : Nat) :
    (buildTrialC g k p tr rep).1.1.trial_num = tr ∧
    (buildTrialC g k p tr rep).1.1.rep_num = rep ∧
    (buildTrialC g k p tr rep).1.1.num_stimuli = numStimuliC tr := by
  unfold buildTrialC setColorsC setPositions Trial.initC
  dsimp only
  split <;> simp

lemma buildTrialD_palettes (g : Nat → Nat) (k : Nat) (p1 p2 : List Color) (tr rep : Nat) :
    List.Perm (buildTrialD g k p1 p2 tr rep).1.2.1 p1 ∧
    List.Perm (buildTrialD g k p1 p2 tr rep).1.2.2 p2 := by
  unfold buildTrialD setColorsD
  dsimp only
  split <;> exact ⟨shuffle_fst_perm g _ _, shuffle_fst_perm g _ _⟩

lemma buildTrialC_palettes (g : Nat → Nat) (k : Nat) (p : List Color) (tr rep : Nat) :
    List.Perm (buildTrialC g k p tr rep).1.2 p := by
  unfold buildTrialC setColorsC
  dsimp only
  split <;> exact shuffle_fst_perm g _ _

lemma mem_genTrialsD {g : Nat → Nat} {t : Trial} :
    ∀ (prs : List (Nat × Nat)) (p1 p2 : List Color) (k : Nat),
      t ∈ (genTrialsD g prs p1 p2 k).1 →
      ∃ pr ∈ prs, ∃ k2 q1 q2, List.Perm q1 p1 ∧ List.Perm q2 p2 ∧
        t = (buildTrialD g k2 q1 q2 pr.1 pr.2).1.1
  | [], p1, p2, k, h => absurd h (by simp [genTrialsD])
  | pr :: rest, p1, p2, k, h => by
    rw [genTrialsD] at h
    rcases List.mem_cons.mp h with h | h
    · exact ⟨pr, List.mem_cons_self _ _, k, p1, p2,
        List.Perm.refl _, List.Perm.refl _, h⟩
    · obtain ⟨pr', hpr', k2, q1, q2, hq1, hq2, ht⟩ :=
        mem_genTrialsD rest _ _ _ h
      exact ⟨pr', List.mem_cons_of_mem _ hpr', k2, q1, q2,
        hq1.trans (buildTrialD_palettes g k p1 p2 pr.1 pr.2).1,
        hq2.trans (buildTrialD_palettes g k p1 p2 pr.1 pr.2).2, ht⟩

lemma mem_genTrialsC {g : Nat → Nat} {t : Trial} :
    ∀ (prs : List (Nat × Nat)) (p : List Color) (k : Nat),
      t ∈ (genTrialsC g prs p k).1 →
      ∃ pr ∈ prs, ∃ k2 q, List.Perm q p ∧ t = (buildTrialC g k2 q pr.1 pr.2).1.1
  | [], p, k, h => absurd h (by simp [genTrialsC])
  | pr :: rest, p, k, h => by
    rw [genTrialsC] at h
    rcases List.mem_cons.mp h with h | h
    · exact ⟨pr, List.mem_cons_self _ _, k, p, List.Perm.refl _, h⟩
    · obtain ⟨pr', hpr', k2, q, hq, ht⟩ := mem_genTrialsC rest _ _ h
      exact ⟨pr', List.mem_cons_of_mem _ hpr', k2, q,
        hq.trans (buildTrialC_palettes g k p pr.1 pr.2), ht⟩

/-- Every trial of the shuffled discrete trial list is the result of one
generator iteration at some cursor, on palettes that are permutations of the
two global palettes, with a trial type below NUM_TYPE and a repetition below
NUM_REPS. -/
lemma mem_setTrialsD {t : Trial} {g : Nat → Nat} {numReps : Nat}
    (h : t ∈ setTrialsD g numReps) :
    ∃ tr rep k q1 q2, tr < NUM_TYPE_D ∧ rep < numReps ∧
      List.Perm q1 TRIAL_colorS1 ∧ List.Perm q2 TRIAL_colorS2 ∧
      t = (buildTrialD g k q1 q2 tr rep).1.1 := by
  have h1 : t ∈ (setTrialsPreD g numReps).1 :=
    (shuffle_fst_perm g _ _).mem_iff.mp h
  obtain ⟨pr, hpr, k2, q1, q2, hq1, hq2, ht⟩ := mem_genTrialsD _ _ _ _ h1
  have hp := trialPairs_mem.mp hpr
  exact ⟨pr.1, pr.2, k2, q1, q2, hp.1, hp.2, hq1, hq2, ht⟩

/-- Continuous-variant counterpart of mem_setTrialsD. -/
lemma mem_setTrialsC {t : Trial} {g : Nat → Nat} {numReps : Nat}
    (h : t ∈ setTrialsC g numReps) :
    ∃ tr rep k q, tr < NUM_TYPE_C ∧ rep < numReps ∧
      List.Perm q TRIAL_colorS_Cont ∧ t = (buildTrialC g k q tr rep).1.1 := by
  have h1 : t ∈ (setTrialsPreC g numReps).1 :=
    (shuffle_fst_perm g _ _).mem_iff.mp h
  obtain ⟨pr, hpr, k2, q, hq, ht⟩ := mem_genTrialsC _ _ _ h1
  have hp := trialPairs_mem.mp hpr
  exact ⟨pr.1, pr.2, k2, q, hp.1, hp.2, hq, ht⟩

/-! ### Small list helpers -/

lemma getD_set_ne {α : Type*} (l : List α) (r i : Nat) (v d : α) (h : r ≠ i) :
    (l.set r v).getD i d = l.getD i d := by
  rw [List.getD_eq_getElem?_getD, List.getD_eq_getElem?_getD, List.getElem?_set_ne h]

lemma getD_set_self {α : Type*} (l : List α) (r : Nat) (v d : α) (h : r < l.length) :
    (l.set r v).getD r d = v := by
  rw [List.getD_eq_getElem?_getD, List.getElem?_set_self h]
  rfl

lemma getD_take_lt {α : Type*} (l : List α) (n i : Nat) (d : α) (h : i < n) :
    (l.take n).getD i d = l.getD i d := by
  rw [List.getD_eq_getElem?_getD, List.getD_eq_getElem?_getD, List.getElem?_take]
  simp [h]

lemma getD_mem {α : Type*} :
    ∀ (l : List α) (i : Nat) (d : α), i < l.length → l.getD i d ∈ l
  | [], _, _, h => absurd h (by simp)
  | _ :: _, 0, _, _ => List.mem_cons_self _ _
  | a :: rest, i + 1, d, h =>
    List.mem_cons_of_mem a
      (getD_mem rest i d (by simpa using Nat.lt_of_succ_lt_succ h))

lemma nodup_getD_ne {α : Type*} {l : List α} (h : l.Nodup) {i j : Nat} (d : α)
    (hi : i < l.length) (hj : j < l.length) (hne : i ≠ j) :
    l.getD i d ≠ l.getD j d := by
  rw [List.getD_eq_getElem _ _ hi, List.getD_eq_getElem _ _ hj]
  intro he
  exact hne ((h.getElem_inj_iff).mp he)

/-! ### Value ranges of the load table and the random draws -/

lemma numStimuliD_le (tr : Nat) : numStimuliD tr ≤ 12 := by
  simp only [numStimuliD]
  split_ifs <;> omega

lemma numStimuliC_le (tr : Nat) : numStimuliC tr ≤ 6 := by
  simp only [numStimuliC]
  split_ifs <;> omega

lemma numStimuliD_pos {tr : Nat} (h : tr < NUM_TYPE_D) : 0 < numStimuliD tr := by
  have h6 : tr < 6 := h
  interval_cases tr <;> simp [numStimuliD]

lemma numStimuliC_pos {tr : Nat} (h : tr < NUM_TYPE_C) : 0 < numStimuliC tr := by
  have h3 : tr < 3 := h
  interval_cases tr <;> simp [numStimuliC]

lemma randint_lower (g : Nat → Nat) (k lo hi : Nat) : lo ≤ randint g k lo hi :=
  Nat.le_add_right _ _

lemma randint_upper (g : Nat → Nat) (k lo hi : Nat) (h : lo ≤ hi) :
    randint g k lo hi ≤ hi := by
  unfold randint
  have hm : g k % (hi + 1 - lo) < hi + 1 - lo := Nat.mod_lt _ (by omega)
  omega

lemma randint_mod (g : Nat → Nat) (k n : Nat) (h : 0 < n) :
    randint g k 0 (n - 1) = g k % n := by
  unfold randint
  have he : n - 1 + 1 - 0 = n := by omega
  rw [he]
  simp

/-- Every value of the inclusive range is a possible randint outcome: the
draws are uniform over exactly [lo, hi]. -/
lemma randint_reachable (lo hi v k : Nat) (h1 : lo ≤ v) (h2 : v ≤ hi) :
    randint (fun _ => v - lo) k lo hi = v := by
  unfold randint
  show lo + (v - lo) % (hi + 1 - lo) = v
  have hm : (v - lo) % (hi + 1 - lo) = v - lo := Nat.mod_eq_of_lt (by omega)
  rw [hm]
  omega

/-! ### Field-level characterisation of one generator iteration -/

lemma buildTrialD_slots (g : Nat → Nat) (k : Nat) (p1 p2 : List Color) (tr rep : Nat) :
    (buildTrialD g k p1 p2 tr rep).1.1.stim_pos_slots =
      (shuffle g k (List.range 12)).1.take (numStimuliD tr) := by
  unfold buildTrialD setColorsD setPositions Trial.initD
  dsimp only
  split <;> simp

lemma buildTrialC_slots (g : Nat → Nat) (k : Nat) (p : List Color) (tr rep : Nat) :
    (buildTrialC g k p tr rep).1.1.stim_pos_slots =
      (shuffle g k (List.range 12)).1.take (numStimuliC tr) := by
  unfold buildTrialC setColorsC setPositions Trial.initC
  dsimp only
  split <;> simp

lemma buildTrialD_stim_colors (g : Nat → Nat) (k : Nat) (p1 p2 : List Color) (tr rep : Nat) :
    (buildTrialD g k p1 p2 tr rep).1.1.stim_colors =
      ((shuffle g (k + 12) p1).1 ++ (shuffle g (k + 12 + p1.length) p2).1).take
        (numStimuliD tr) := by
  unfold buildTrialD setColorsD setPositions Trial.initD
  dsimp only
  split <;> simp [shuffle_snd]

lemma buildTrialC_stim_colors (g : Nat → Nat) (k : Nat) (p : List Color) (tr rep : Nat) :
    (buildTrialC g k p tr rep).1.1.stim_colors =
      ((shuffle g (k + 12) p).1).take (numStimuliC tr) := by
  unfold buildTrialC setColorsC setPositions Trial.initC
  dsimp only
  split <;> simp [shuffle_snd]

lemma buildTrialD_change (g : Nat → Nat) (k : Nat) (p1 p2 : List Color) (tr rep : Nat) :
    (buildTrialD g k p1 p2 tr rep).1.1.change = decide (rep % 2 = 0) := by
  unfold buildTrialD setColorsD setPositions Trial.initD
  dsimp only
  split <;> simp_all

lemma buildTrialC_change (g : Nat → Nat) (k : Nat) (p : List Color) (tr rep : Nat) :
    (buildTrialC g k p tr rep).1.1.change = decide (rep % 2 = 0) := by
  unfold buildTrialC setColorsC setPositions Trial.initC
  dsimp only
  split <;> simp_all

lemma buildTrialD_probe_even (g : Nat → Nat) (k : Nat) (p1 p2 : List Color) (tr rep : Nat)
    (h : rep % 2 = 0) :
    (buildTrialD g k p1 p2 tr rep).1.1.probe_colors =
      (((shuffle g (k + 12) p1).1 ++ (shuffle g (k + 12 + p1.length) p2).1).set
        (randint g (k + 12 + p1.length + p2.length) 0 (numStimuliD tr - 1))
        (((shuffle g (k + 12) p1).1 ++ (shuffle g (k + 12 + p1.length) p2).1).getD
          (randint g (k + 12 + p1.length + p2.length + 1) (numStimuliD tr) 13)
          default)).take (numStimuliD tr) := by
  unfold buildTrialD setColorsD setPositions Trial.initD
  dsimp only
  rw [if_pos (by simpa using h)]
  simp [shuffle_snd]

lemma buildTrialD_probe_odd (g : Nat → Nat) (k : Nat) (p1 p2 : List Color) (tr rep : Nat)
    (h : rep % 2 = 1) :
    (buildTrialD g k p1 p2 tr rep).1.1.probe_colors =
      (buildTrialD g k p1 p2 tr rep).1.1.stim_colors := by
  unfold buildTrialD setColorsD setPositions Trial.initD
  dsimp only
  rw [if_neg (by omega)]

lemma buildTrialC_probe_even (g : Nat → Nat) (k : Nat) (p : List Color) (tr rep : Nat)
    (h : rep % 2 = 0) :
    (buildTrialC g k p tr rep).1.1.probe_colors =
      (((shuffle g (k + 12) p).1).set
        (randint g (k + 12 + p.length) 0 (numStimuliC tr - 1))
        (((shuffle g (k + 12) p).1).getD
          (randint g (k + 12 + p.length + 1) (numStimuliC tr) 7)
          default)).take (numStimuliC tr) := by
  unfold buildTrialC setColorsC setPositions Trial.initC
  dsimp only
  rw [if_pos (by simpa using h)]
  simp [shuffle_snd]

lemma buildTrialC_probe_odd (g : Nat → Nat) (k : Nat) (p : List Color) (tr rep : Nat)
    (h : rep % 2 = 1) :
    (buildTrialC g k p tr rep).1.1.probe_colors =
      (buildTrialC g k p tr rep).1.1.stim_colors := by
  unfold buildTrialC setColorsC setPositions Trial.initC
  dsimp only
  rw [if_neg (by omega)]

lemma shuffle_fst_length {α : Type*} (g : Nat → Nat) (k : Nat) (l : List α) :
    (shuffle g k l).1.length = l.length :=
  (shuffle_fst_perm g k l).length_eq

lemma TRIAL_colorS1_nodup : TRIAL_colorS1.Nodup := by decide

lemma TRIAL_colorS2_nodup : TRIAL_colorS2.Nodup := by decide

lemma orange_mid_eq : mkRat 37 125 = (0.296 : ℚ) := by norm_num

lemma TRIAL_colorS_Cont_nodup : TRIAL_colorS_Cont.Nodup := by decide

/-- All invariants of a trial drawn from the shuffled discrete trial list,
over every entropy stream: identifiers, list lengths, slot distinctness,
color distinctness up to load 8, and the parity-driven probe construction. -/
lemma trialD_invariants {t : Trial} {g : Nat → Nat} {numReps : Nat}
    (h : t ∈ setTrialsD g numReps) :
    t.trial_num < 6 ∧
    t.num_stimuli = numStimuliD t.trial_num ∧
    t.stim_pos_slots.length = t.num_stimuli ∧
    t.stim_colors.length = t.num_stimuli ∧
    t.probe_colors.length = t.num_stimuli ∧
    t.stim_pos_slots.Nodup ∧
    (∀ s ∈ t.stim_pos_slots, s < 12) ∧
    (t.num_stimuli ≤ 8 → t.stim_colors.Nodup) ∧
    t.change = decide (t.rep_num % 2 = 0) ∧
    (t.rep_num % 2 = 1 → t.probe_colors = t.stim_colors) ∧
    (t.rep_num % 2 = 0 → ∃ r, r < t.num_stimuli ∧
      ∀ i, i < t.num_stimuli → i ≠ r →
        t.probe_colors.getD i default = t.stim_colors.getD i default) := by
  obtain ⟨tr, rep, k, q1, q2, htr, hrep, hq1, hq2, ht⟩ := mem_setTrialsD h
  subst ht
  obtain ⟨hid1, hid2, hid3⟩ := buildTrialD_ids g k q1 q2 tr rep
  have hq1len : q1.length = 8 := by rw [hq1.length_eq]; rfl
  have hq2len : q2.length = 8 := by rw [hq2.length_eq]; rfl
  have hnle : numStimuliD tr ≤ 12 := numStimuliD_le tr
  have hnpos : 0 < numStimuliD tr := numStimuliD_pos htr
  have hs1len : (shuffle g (k + 12) q1).1.length = 8 := by
    rw [shuffle_fst_length, hq1len]
  have hs2len : (shuffle g (k + 12 + q1.length) q2).1.length = 8 := by
    rw [shuffle_fst_length, hq2len]
  have hs1nodup : (shuffle g (k + 12) q1).1.Nodup :=
    (((shuffle_fst_perm g (k + 12) q1).trans hq1).symm).nodup TRIAL_colorS1_nodup
  have hpoollen :
      ((shuffle g (k + 12) q1).1 ++ (shuffle g (k + 12 + q1.length) q2).1).length = 16 := by
    rw [List.length_append, hs1len, hs2len]
  have hsh12 : (shuffle g k (List.range 12)).1.length = 12 := by
    rw [shuffle_fst_length, List.length_range]
  have hshnodup : (shuffle g k (List.range 12)).1.Nodup :=
    ((shuffle_fst_perm g k (List.range 12)).symm).nodup (List.nodup_range 12)
  refine ⟨by rw [hid1]; exact htr, by rw [hid3, hid1], ?_, ?_, ?_, ?_, ?_, ?_, ?_, ?_, ?_⟩
  · rw [buildTrialD_slots, hid3, List.length_take, hsh12]
    omega
  · rw [buildTrialD_stim_colors, hid3, List.length_take, hpoollen]
    omega
  · rw [hid3]
    rcases Nat.mod_two_eq_zero_or_one rep with h2 | h2
    · rw [buildTrialD_probe_even g k q1 q2 tr rep h2, List.length_take,
        List.length_set, hpoollen]
      omega
    · rw [buildTrialD_probe_odd g k q1 q2 tr rep h2, buildTrialD_stim_colors,
        List.length_take, hpoollen]
      omega
  · rw [buildTrialD_slots]
    exact hshnodup.sublist (List.take_sublist _ _)
  · rw [buildTrialD_slots]
    intro s hs
    have hmem : s ∈ (shuffle g k (List.range 12)).1 :=
      List.take_subset _ _ hs
    have : s ∈ List.range 12 := (shuffle_fst_perm g k (List.range 12)).mem_iff.mp hmem
    simpa using this
  · intro hle
    rw [hid3] at hle
    rw [buildTrialD_stim_colors]
    rw [List.take_append_of_le_length (by omega)]
    exact hs1nodup.sublist (List.take_sublist _ _)
  · rw [buildTrialD_change, hid2]
  · intro hodd
    rw [hid2] at hodd
    exact buildTrialD_probe_odd g k q1 q2 tr rep hodd
  · intro heven
    rw [hid2] at heven
    refine ⟨randint g (k + 12 + q1.length + q2.length) 0 (numStimuliD tr - 1), ?_, ?_⟩
    · rw [hid3, randint_mod _ _ _ hnpos]
      exact Nat.mod_lt _ hnpos
    · intro i hi hne
      rw [hid3] at hi
      rw [buildTrialD_probe_even g k q1 q2 tr rep heven,
        buildTrialD_stim_colors, getD_take_lt _ _ _ _ hi, getD_take_lt _ _ _ _ hi,
        getD_set_ne _ _ _ _ _ (fun he => hne he.symm)]

/-- All invariants of a trial drawn from the shuffled continuous trial list,
over every entropy stream.  Since the single palette is drawn without
replacement, a change trial here differs from its sample in exactly one
position. -/
lemma trialC_invariants {t : Trial} {g : Nat → Nat} {numReps : Nat}
    (h : t ∈ setTrialsC g numReps) :
    t.trial_num < 3 ∧
    t.num_stimuli = numStimuliC t.trial_num ∧
    0 < t.num_stimuli ∧
    t.stim_pos_slots.length = t.num_stimuli ∧
    t.stim_colors.length = t.num_stimuli ∧
    t.probe_colors.length = t.num_stimuli ∧
    t.stim_pos_slots.Nodup ∧
    (∀ s ∈ t.stim_pos_slots, s < 12) ∧
    t.stim_colors.Nodup ∧
    t.change = decide (t.rep_num % 2 = 0) ∧
    (t.rep_num % 2 = 1 → t.probe_colors = t.stim_colors) ∧
    (t.rep_num % 2 = 0 → ∃ r, r < t.num_stimuli ∧
      t.probe_colors.getD r default ≠ t.stim_colors.getD r default ∧
      ∀ i, i < t.num_stimuli → i ≠ r →
        t.probe_colors.getD i default = t.stim_colors.getD i default) := by
  obtain ⟨tr, rep, k, q, htr, hrep, hq, ht⟩ := mem_setTrialsC h
  subst ht
  obtain ⟨hid1, hid2, hid3⟩ := buildTrialC_ids g k q tr rep
  have hqlen : q.length = 8 := by rw [hq.length_eq]; rfl
  have hnle : numStimuliC tr ≤ 6 := numStimuliC_le tr
  have hnpos : 0 < numStimuliC tr := numStimuliC_pos htr
  have hplen : (shuffle g (k + 12) q).1.length = 8 := by
    rw [shuffle_fst_length, hqlen]
  have hpnodup : (shuffle g (k + 12) q).1.Nodup :=
    (((shuffle_fst_perm g (k + 12) q).trans hq).symm).nodup TRIAL_colorS_Cont_nodup
  have hsh12 : (shuffle g k (List.range 12)).1.length = 12 := by
    rw [shuffle_fst_length, List.length_range]
  have hshnodup : (shuffle g k (List.range 12)).1.Nodup :=
    ((shuffle_fst_perm g k (List.range 12)).symm).nodup (List.nodup_range 12)
  refine ⟨by rw [hid1]; exact htr, by rw [hid3, hid1], by rw [hid3]; exact hnpos,
    ?_, ?_, ?_, ?_, ?_, ?_, ?_, ?_, ?_⟩
  · rw [buildTrialC_slots, hid3, List.length_take, hsh12]
    omega
  · rw [buildTrialC_stim_colors, hid3, List.length_take, hplen]
    omega
  · rw [hid3]
    rcases Nat.mod_two_eq_zero_or_one rep with h2 | h2
    · rw [buildTrialC_probe_even g k q tr rep h2, List.length_take,
        List.length_set, hplen]
      omega
    · rw [buildTrialC_probe_odd g k q tr rep h2, buildTrialC_stim_colors,
        List.length_take, hplen]
      omega
  · rw [buildTrialC_slots]
    exact hshnodup.sublist (List.take_sublist _ _)
  · rw [buildTrialC_slots]
    intro s hs
    have hmem : s ∈ (shuffle g k (List.range 12)).1 :=
      List.take_subset _ _ hs
    have : s ∈ List.range 12 := (shuffle_fst_perm g k (List.range 12)).mem_iff.mp hmem
    simpa using this
  · rw [buildTrialC_stim_colors]
    exact hpnodup.sublist (List.take_sublist _ _)
  · rw [buildTrialC_change, hid2]
  · intro hodd
    rw [hid2] at hodd
    exact buildTrialC_probe_odd g k q tr rep hodd
  · intro heven
    rw [hid2] at heven
    have hrlt : randint g (k + 12 + q.length) 0 (numStimuliC tr - 1) < numStimuliC tr := by
      rw [randint_mod _ _ _ hnpos]
      exact Nat.mod_lt _ hnpos
    have hjge : numStimuliC tr ≤ randint g (k + 12 + q.length + 1) (numStimuliC tr) 7 :=
      randint_lower _ _ _ _
    have hjle : randint g (k + 12 + q.length + 1) (numStimuliC tr) 7 ≤ 7 :=
      randint_upper _ _ _ _ (by omega)
    refine ⟨randint g (k + 12 + q.length) 0 (numStimuliC tr - 1), ?_, ?_, ?_⟩
    · rw [hid3]
      exact hrlt
    · rw [buildTrialC_probe_even g k q tr rep heven, buildTrialC_stim_colors,
        getD_take_lt _ _ _ _ hrlt, getD_take_lt _ _ _ _ hrlt,
        getD_set_self _ _ _ _ (by omega)]
      exact nodup_getD_ne hpnodup default (by omega) (by omega) (by omega)
    · intro i hi hne
      rw [hid3] at hi
      rw [buildTrialC_probe_even g k q tr rep heven, buildTrialC_stim_colors,
        getD_take_lt _ _ _ _ hi, getD_take_lt _ _ _ _ hi,
        getD_set_ne _ _ _ _ _ (fun he => hne he.symm)]

/-! ### Geometry of the stimulus ring and the color wheel -/

lemma stimAngle_eq (k : Nat) : stimAngle k = 2 * Real.pi * k / 12 := by
  unfold stimAngle radians
  ring

lemma wheelTheta_eq (i : Nat) : wheelTheta i = 2 * Real.pi * i / 360 := by
  unfold wheelTheta radians
  ring

/-- Distinct slots of an n-point circle have distinct angle cosine-sine
pairs: the corresponding complex exponentials are distinct powers of a
primitive n-th root of unity. -/
lemma cos_sin_nat_inj {n : Nat} (hn : n ≠ 0) {a b : Nat} (ha : a < n) (hb : b < n)
    (hc : Real.cos (2 * Real.pi * a / n) = Real.cos (2 * Real.pi * b / n))
    (hs : Real.sin (2 * Real.pi * a / n) = Real.sin (2 * Real.pi * b / n)) :
    a = b := by
  have hprim := Complex.isPrimitiveRoot_exp n hn
  have hne : (n : ℂ) ≠ 0 := Nat.cast_ne_zero.mpr hn
  have hpow : Complex.exp (2 * Real.pi * Complex.I / n) ^ a =
      Complex.exp (2 * Real.pi * Complex.I / n) ^ b := by
    rw [← Complex.exp_nat_mul, ← Complex.exp_nat_mul]
    have h1 : (a : ℂ) * (2 * Real.pi * Complex.I / n) =
        ((2 * Real.pi * a / n : ℝ) : ℂ) * Complex.I := by
      push_cast
      ring
    have h2 : (b : ℂ) * (2 * Real.pi * Complex.I / n) =
        ((2 * Real.pi * b / n : ℝ) : ℂ) * Complex.I := by
      push_cast
      ring
    rw [h1, h2, Complex.exp_mul_I, Complex.exp_mul_I,
      ← Complex.ofReal_cos, ← Complex.ofReal_cos,
      ← Complex.ofReal_sin, ← Complex.ofReal_sin, hc, hs]
  exact hprim.pow_inj ha hb hpow

lemma basePos_inj {a b : Nat} (ha : a < 12) (hb : b < 12)
    (h : basePos a = basePos b) : a = b := by
  unfold basePos at h
  have hc4 := congrArg Prod.fst h
  have hs4 := congrArg Prod.snd h
  simp only at hc4 hs4
  have hc : Real.cos (stimAngle a) = Real.cos (stimAngle b) :=
    mul_right_cancel₀ (by norm_num : (4 : ℝ) ≠ 0) hc4
  have hs : Real.sin (stimAngle a) = Real.sin (stimAngle b) :=
    mul_right_cancel₀ (by norm_num : (4 : ℝ) ≠ 0) hs4
  rw [stimAngle_eq, stimAngle_eq] at hc hs
  have h12 : ((12 : Nat) : ℝ) = (12 : ℝ) := by norm_num
  refine cos_sin_nat_inj (by norm_num) ha hb ?_ ?_ <;> rw [h12] <;> assumption

lemma wheelPos_inj {a b : Nat} (ha : a < 360) (hb : b < 360)
    (h : wheelPos a = wheelPos b) : a = b := by
  unfold wheelPos at h
  have hc8 := congrArg Prod.fst h
  have hs8 := congrArg Prod.snd h
  simp only at hc8 hs8
  have hc : Real.cos (wheelTheta a) = Real.cos (wheelTheta b) :=
    mul_left_cancel₀ (by norm_num : (8 : ℝ) ≠ 0) hc8
  have hs : Real.sin (wheelTheta a) = Real.sin (wheelTheta b) :=
    mul_left_cancel₀ (by norm_num : (8 : ℝ) ≠ 0) hs8
  rw [wheelTheta_eq, wheelTheta_eq] at hc hs
  have h360 : ((360 : Nat) : ℝ) = (360 : ℝ) := by norm_num
  refine cos_sin_nat_inj (by norm_num) ha hb ?_ ?_ <;> rw [h360] <;> assumption

lemma eucDist_self (p : ℝ × ℝ) : eucDist p p = 0 := by
  unfold eucDist
  simp

lemma eucDist_nonneg (p q : ℝ × ℝ) : 0 ≤ eucDist p q :=
  Real.sqrt_nonneg _

lemma eucDist_pos_of_ne {p q : ℝ × ℝ} (h : p ≠ q) : 0 < eucDist p q := by
  unfold eucDist
  apply Real.sqrt_pos.mpr
  have hor : p.1 ≠ q.1 ∨ p.2 ≠ q.2 := by
    by_contra hno
    push_neg at hno
    exact h (Prod.ext hno.1 hno.2)
  rcases hor with h1 | h2
  · have hp : 0 < (p.1 - q.1) ^ 2 := pow_two_pos_of_ne_zero (sub_ne_zero.mpr h1)
    nlinarith [sq_nonneg (p.2 - q.2)]
  · have hp : 0 < (p.2 - q.2) ^ 2 := pow_two_pos_of_ne_zero (sub_ne_zero.mpr h2)
    nlinarith [sq_nonneg (p.1 - q.1)]

/-- Every wheel point lies at distance loop_radius = 8 from the wheel
center. -/
lemma eucDist_wheelPos_center (i : Nat) : eucDist (wheelPos i) (0, 0) = 8 := by
  unfold eucDist wheelPos
  have hcs := Real.sin_sq_add_cos_sq (wheelTheta i)
  have h64 : (8 * Real.cos (wheelTheta i) - 0) ^ 2 +
      (8 * Real.sin (wheelTheta i) - 0) ^ 2 = 64 := by nlinarith
  rw [show ((8 * Real.cos (wheelTheta i), 8 * Real.sin (wheelTheta i)) :
      ℝ × ℝ).1 = 8 * Real.cos (wheelTheta i) from rfl]
  rw [show ((8 * Real.cos (wheelTheta i), 8 * Real.sin (wheelTheta i)) :
      ℝ × ℝ).2 = 8 * Real.sin (wheelTheta i) from rfl]
  rw [show ((0, 0) : ℝ × ℝ).1 = 0 from rfl, show ((0, 0) : ℝ × ℝ).2 = 0 from rfl]
  rw [h64, show (64 : ℝ) = 8 ^ 2 by norm_num, Real.sqrt_sq (by norm_num)]

/-- np.argmin returns the first index attaining the minimum. -/
lemma argminIdx_eq_of {f : Nat → ℝ} {n m : Nat}
    (hm : m < n ∧ ∀ j, j < n → f m ≤ f j)
    (hlt : ∀ i, i < m → ¬ (i < n ∧ ∀ j, j < n → f i ≤ f j)) :
    argminIdx f n = m := by
  unfold argminIdx
  rw [dif_pos ⟨m, hm⟩]
  exact (Nat.find_eq_iff _).mpr ⟨hm, hlt⟩

/-- The nearest-wheel-point index is in range and attains the minimal
distance to the pointer. -/
lemma reportedLoc_min (p : ℝ × ℝ) :
    reportedLoc p < 360 ∧
      ∀ j, j < 360 → eucDist (wheelPos (reportedLoc p)) p ≤ eucDist (wheelPos j) p := by
  unfold reportedLoc argminIdx
  have hex : ∃ i, i < 360 ∧ ∀ j, j < 360 →
      eucDist (wheelPos i) p ≤ eucDist (wheelPos j) p := by
    obtain ⟨b, hb, hmin⟩ := Finset.exists_min_image (Finset.range 360)
      (fun i => eucDist (wheelPos i) p) ⟨0, by simp⟩
    exact ⟨b, by simpa using hb, fun j hj => hmin j (by simpa using hj)⟩
  rw [dif_pos hex]
  exact ⟨(Nat.find_spec hex).1, (Nat.find_spec hex).2⟩

/-- A pointer placed exactly on wheel point 90 resolves to index 90. -/
lemma reportedLoc_at_90 : reportedLoc (wheelPos 90) = 90 := by
  unfold reportedLoc
  apply argminIdx_eq_of
  · refine ⟨by norm_num, fun j hj => ?_⟩
    rw [eucDist_self]
    exact eucDist_nonneg _ _
  · rintro i hi ⟨hi360, hall⟩
    have h90 := hall 90 (by norm_num)
    rw [eucDist_self] at h90
    have hne : wheelPos i ≠ wheelPos 90 := by
      intro he
      have := wheelPos_inj (by omega) (by norm_num) he
      omega
    exact absurd (le_antisymm h90 (eucDist_nonneg _ _)) (ne_of_gt (eucDist_pos_of_ne hne))

/-- A pointer at the screen center is equidistant from all wheel points, so
np.argmin resolves to the first index 0. -/
lemma reportedLoc_at_center : reportedLoc (0, 0) = 0 := by
  unfold reportedLoc
  apply argminIdx_eq_of
  · refine ⟨by norm_num, fun j hj => ?_⟩
    rw [eucDist_wheelPos_center, eucDist_wheelPos_center]
  · intro i hi
    exact absurd hi (Nat.not_lt_zero i)

lemma judgementError_self (c : Color) : judgementError c c = 0 := by
  unfold judgementError
  simp

lemma not_inAnnulus_center : ¬ inAnnulus (0, 0) := by
  unfold inAnnulus
  rw [eucDist_self]
  intro hcon
  exact hcon.1 (by norm_num)

lemma respLoopGo_accept (mp : Nat → ℝ × ℝ) (bt : Nat → Bool) (fuel t : Nat)
    (h : bt t = true) :
    respLoopGo mp bt (fuel + 1) t = some (wheelRGB (reportedLoc (mp t)), t) := by
  unfold respLoopGo
  rw [if_pos h]

lemma respLoopGo_skip (mp : Nat → ℝ × ℝ) (bt : Nat → Bool) (fuel t : Nat)
    (h : bt t = false) :
    respLoopGo mp bt (fuel + 1) t = respLoopGo mp bt fuel (t + 1) := by
  unfold respLoopGo
  rw [if_neg (by simp [h])]
  cases fuel <;> rfl

lemma inAnnulus_wheelPos (i : Nat) : inAnnulus (wheelPos i) := by
  unfold inAnnulus
  rw [eucDist_wheelPos_center]
  norm_num

lemma numStimuliD_eq_zero {tr : Nat} (h : 6 ≤ tr) : numStimuliD tr = 0 := by
  simp only [numStimuliD]
  split_ifs <;> omega

lemma numStimuliC_eq_zero {tr : Nat} (h : 3 ≤ tr) : numStimuliC tr = 0 := by
  simp only [numStimuliC]
  split_ifs <;> omega

/-- The stored slot list determines well-formed coordinates: as many
positions as stimuli, pairwise distinct, all on the 12-slot ring of radius
4 at angles 2 pi k / 12. -/
lemma positions_from_slots {t : Trial}
    (hlen : t.stim_pos_slots.length = t.num_stimuli)
    (hnd : t.stim_pos_slots.Nodup) (hlt : ∀ s ∈ t.stim_pos_slots, s < 12) :
    t.positions.length = t.num_stimuli ∧ t.positions.Nodup ∧
    ∀ p ∈ t.positions, ∃ j : Nat, j < 12 ∧
      p = (Real.cos (2 * Real.pi * j / 12) * 4, Real.sin (2 * Real.pi * j / 12) * 4) := by
  unfold Trial.positions
  refine ⟨by simpa using hlen, ?_, ?_⟩
  · exact List.Nodup.map_on
      (fun x hx y hy hxy => basePos_inj (hlt x hx) (hlt y hy) hxy) hnd
  · intro p hp
    obtain ⟨s, hs, rfl⟩ := List.mem_map.mp hp
    refine ⟨s, hlt s hs, ?_⟩
    unfold basePos
    rw [stimAngle_eq]

lemma genTrialsD_map_ids (g : Nat → Nat) :
    ∀ (prs : List (Nat × Nat)) (p1 p2 : List Color) (k : Nat),
      ((genTrialsD g prs p1 p2 k).1.map fun t => (t.trial_num, t.rep_num)) = prs
  | [], _, _, _ => rfl
  | pr :: rest, p1, p2, k => by
    rw [genTrialsD]
    simp only [List.map_cons]
    rw [genTrialsD_map_ids g rest _ _ _]
    have hid := buildTrialD_ids g k p1 p2 pr.1 pr.2
    rw [hid.1, hid.2.1]

lemma genTrialsC_map_ids (g : Nat → Nat) :
    ∀ (prs : List (Nat × Nat)) (p : List Color) (k : Nat),
      ((genTrialsC g prs p k).1.map fun t => (t.trial_num, t.rep_num)) = prs
  | [], _, _ => rfl
  | pr :: rest, p, k => by
    rw [genTrialsC]
    simp only [List.map_cons]
    rw [genTrialsC_map_ids g rest _ _]
    have hid := buildTrialC_ids g k p pr.1 pr.2
    rw [hid.1, hid.2.1]

lemma genTrialsD_length (g : Nat → Nat) (prs : List (Nat × Nat))
    (p1 p2 : List Color) (k : Nat) :
    (genTrialsD g prs p1 p2 k).1.length = prs.length := by
  have h := congrArg List.length (genTrialsD_map_ids g prs p1 p2 k)
  simpa using h

lemma genTrialsC_length (g : Nat → Nat) (prs : List (Nat × Nat))
    (p : List Color) (k : Nat) :
    (genTrialsC g prs p k).1.length = prs.length := by
  have h := congrArg List.length (genTrialsC_map_ids g prs p k)
  simpa using h

/-! ### Claim theorems -/

/-- C1 (amended): the sample colors of a generated trial are pairwise
distinct whenever its stimulus count is at most the palette size 8 — which
covers every continuous trial and every discrete trial except the
12-stimulus condition.  The original claim, distinctness also at stimulus
count 12, is refuted by sample_colors_dup_at_load12: only 8 distinct colors
exist in the doubled pool.  Generation itself never fails (the generator is
a total function). -/
theorem sample_colors_distinct_amended {t u : Trial} {g g2 : Nat → Nat}
    {nD nC : Nat} (hD : t ∈ setTrialsD g nD) (hC : u ∈ setTrialsC g2 nC) :
    (t.num_stimuli ≤ 8 → t.stim_colors.Nodup) ∧ u.stim_colors.Nodup := by
  obtain ⟨-, -, -, -, -, -, -, h8, -, -, -⟩ := trialD_invariants hD
  obtain ⟨-, -, -, -, -, -, -, -, h9, -, -, -⟩ := trialC_invariants hC
  exact ⟨h8, h9⟩

/-- Witness for C1: the first trials of concrete runs of both generators. -/
theorem sample_colors_distinct_amended_witness :
    tD0 ∈ setTrialsD zeroG 1 ∧ tC0 ∈ setTrialsC zeroG 1 ∧
    ((tD0.num_stimuli ≤ 8 → tD0.stim_colors.Nodup) ∧ tC0.stim_colors.Nodup) :=
  ⟨by decide, by decide,
    sample_colors_distinct_amended (show tD0 ∈ setTrialsD zeroG 1 by decide)
      (show tC0 ∈ setTrialsC zeroG 1 by decide)⟩

/-- Counterexample for C1: on the all-zeros stream the 12-stimulus trial of
the discrete generator repeats Black at positions 0 and 8 of its sample
array, so the drawn sample colors are not pairwise distinct. -/
theorem sample_colors_dup_at_load12 :
    ((setTrialsD zeroG 1).getD 5 default) ∈ setTrialsD zeroG 1 ∧
    ((setTrialsD zeroG 1).getD 5 default).num_stimuli = 12 ∧
    ((setTrialsD zeroG 1).getD 5 default).stim_colors.getD 0 default =
      ((setTrialsD zeroG 1).getD 5 default).stim_colors.getD 8 default ∧
    ¬ ((setTrialsD zeroG 1).getD 5 default).stim_colors.Nodup := by
  decide

/-- C2 (amended): for every generated trial, an even repetition number sets
change = true and alters the probe array in at most one position (the drawn
index r), and an odd repetition number keeps change = false with the probe
array elementwise equal to the sample array.  In the continuous variant the
altered entry genuinely differs, so exactly one position changes; in the
discrete variant the replacement can coincide with the replaced color
(change_trial_without_difference), so "exactly one" weakens to "at most
one". -/
theorem parity_change_structure {t u : Trial} {g g2 : Nat → Nat} {nD nC : Nat}
    (hD : t ∈ setTrialsD g nD) (hC : u ∈ setTrialsC g2 nC) :
    (t.rep_num % 2 = 0 → t.change = true ∧ ∃ r, r < t.num_stimuli ∧
      ∀ i, i < t.num_stimuli → i ≠ r →
        t.probe_colors.getD i default = t.stim_colors.getD i default) ∧
    (t.rep_num % 2 = 1 → t.change = false ∧ t.probe_colors = t.stim_colors) ∧
    (u.rep_num % 2 = 0 → u.change = true ∧ ∃ r, r < u.num_stimuli ∧
      u.probe_colors.getD r default ≠ u.stim_colors.getD r default ∧
      ∀ i, i < u.num_stimuli → i ≠ r →
        u.probe_colors.getD i default = u.stim_colors.getD i default) ∧
    (u.rep_num % 2 = 1 → u.change = false ∧ u.probe_colors = u.stim_colors) := by
  obtain ⟨-, -, -, -, -, -, -, -, hch, hodd, heven⟩ := trialD_invariants hD
  obtain ⟨-, -, -, -, -, -, -, -, -, hch2, hodd2, heven2⟩ := trialC_invariants hC
  refine ⟨fun h0 => ⟨by rw [hch]; simp [h0], heven h0⟩,
    fun h1 => ⟨by rw [hch]; simp [h1], hodd h1⟩,
    fun h0 => ⟨by rw [hch2]; simp [h0], heven2 h0⟩,
    fun h1 => ⟨by rw [hch2]; simp [h1], hodd2 h1⟩⟩

/-- Witness for C2: concrete generated trials with even repetition. -/
theorem parity_change_structure_witness :
    tD0 ∈ setTrialsD zeroG 1 ∧ tC0 ∈ setTrialsC zeroG 1 ∧
    tD0.rep_num % 2 = 0 ∧ tD0.change = true :=
  ⟨by decide, by decide, by decide,
    ((parity_change_structure (show tD0 ∈ setTrialsD zeroG 1 by decide)
      (show tC0 ∈ setTrialsC zeroG 1 by decide)).1 (by decide)).1⟩

/-- Counterexample for C2: on the all-zeros stream, the 8-stimulus trial of
the discrete generator is a change trial (rep_num even, change = true) whose
probe array nevertheless equals its sample array elementwise: the
replacement color drawn from the second palette copy coincides with the
replaced color, so zero positions differ instead of exactly one. -/
theorem change_trial_without_difference :
    ((setTrialsD zeroG 1).getD 4 default) ∈ setTrialsD zeroG 1 ∧
    ((setTrialsD zeroG 1).getD 4 default).rep_num % 2 = 0 ∧
    ((setTrialsD zeroG 1).getD 4 default).change = true ∧
    ((setTrialsD zeroG 1).getD 4 default).probe_colors =
      ((setTrialsD zeroG 1).getD 4 default).stim_colors := by
  decide

/-- C3 (amended): the annulus between the two circle masks gates only the
DISPLAYED fill color of the probed square: outside the annulus the fill is
withheld, inside it shows the nearest wheel color.  Acceptance is not
gated: whenever a button is pressed at frame t the loop freezes the nearest
wheel color for the pointer position of that frame — wherever the pointer
is — and exits.  The original claim that no color is ever accepted outside
the annulus is refuted by accept_outside_annulus. -/
theorem annulus_gates_display_only (p q : ℝ × ℝ) (mp : Nat → ℝ × ℝ)
    (bt : Nat → Bool) (fuel t : Nat) (hbt : bt t = true)
    (hout : ¬ inAnnulus p) (hin : inAnnulus q) :
    displayFill p = none ∧
    displayFill q = some (wheelRGB (reportedLoc q)) ∧
    respLoopGo mp bt (fuel + 1) t = some (wheelRGB (reportedLoc (mp t)), t) := by
  refine ⟨?_, ?_, respLoopGo_accept mp bt fuel t hbt⟩
  · unfold displayFill
    rw [if_neg hout]
  · unfold displayFill
    rw [if_pos hin]

/-- Witness for C3: pointer at the center (outside the annulus) and on the
wheel (inside the annulus), with the button held down. -/
theorem annulus_gates_display_only_witness :
    (fun _ : Nat => true) 0 = true ∧ ¬ inAnnulus (0, 0) ∧
    inAnnulus (wheelPos 0) ∧ displayFill ((0 : ℝ), (0 : ℝ)) = none :=
  ⟨rfl, not_inAnnulus_center, inAnnulus_wheelPos 0,
    (annulus_gates_display_only ((0 : ℝ), (0 : ℝ)) (wheelPos 0)
      (fun _ => ((0 : ℝ), (0 : ℝ))) (fun _ => true) 0 0 rfl
      not_inAnnulus_center (inAnnulus_wheelPos 0)).1⟩

/-- Counterexample for C3: with the pointer fixed at the screen center —
inside the inner mask, hence outside the annulus — a button press is
accepted immediately: the loop freezes the wheel color at index 0 (the
center is equidistant from the whole wheel, so np.argmin returns the first
index) and exits instead of continuing to poll. -/
theorem accept_outside_annulus :
    respLoopGo (fun _ => ((0 : ℝ), (0 : ℝ))) (fun _ => true) 1 0 =
      some (wheelRGB 0, 0) ∧ ¬ inAnnulus (0, 0) := by
  constructor
  · have h := respLoopGo_accept (fun _ => ((0 : ℝ), (0 : ℝ))) (fun _ => true) 0 0 rfl
    refine h.trans ?_
    show some (wheelRGB (reportedLoc ((0 : ℝ), (0 : ℝ))), 0) = some (wheelRGB 0, 0)
    rw [reportedLoc_at_center]
  · exact not_inAnnulus_center

/-- C4 (amended): trial generation does NOT fail fast on inconsistent
configuration.  A condition index outside the lookup table silently leaves
num_stimuli = 0 in both variants — the constructor raises nothing — and the
color lists are then silently truncated (to empty lists for the unknown
index on an odd repetition, and from the 16-entry pool down to num_stimuli
in general), with no descriptive error anywhere.  (On an even repetition
with num_stimuli = 0 the Python randint call would raise an accidental
empty-range ValueError inside set_colors, not a designed configuration
check.) -/
theorem invalid_config_no_failfast (g : Nat → Nat) (k : Nat)
    (p1 p2 : List Color) (tr rep : Nat) (htr : NUM_TYPE_D ≤ tr)
    (hodd : rep % 2 = 1) :
    (Trial.initD tr rep).num_stimuli = 0 ∧
    (buildTrialD g k p1 p2 tr rep).1.1.num_stimuli = 0 ∧
    (buildTrialD g k p1 p2 tr rep).1.1.stim_colors = [] ∧
    (buildTrialD g k p1 p2 tr rep).1.1.probe_colors = [] ∧
    (NUM_TYPE_C ≤ tr → (Trial.initC tr rep).num_stimuli = 0) ∧
    (buildTrialD g k TRIAL_colorS1 TRIAL_colorS2 5 rep).1.1.stim_colors.length = 12 := by
  have hz : numStimuliD tr = 0 := numStimuliD_eq_zero htr
  refine ⟨hz, ?_, ?_, ?_, ?_, ?_⟩
  · rw [(buildTrialD_ids g k p1 p2 tr rep).2.2]
    exact hz
  · rw [buildTrialD_stim_colors, hz]
    exact List.take_zero _
  · rw [buildTrialD_probe_odd g k p1 p2 tr rep hodd, buildTrialD_stim_colors, hz]
    exact List.take_zero _
  · intro h3
    exact numStimuliC_eq_zero (le_trans (by decide) h3)
  · rw [buildTrialD_stim_colors, List.length_take, List.length_append,
      shuffle_fst_length, shuffle_fst_length]
    rfl

/-- Witness for C4: condition index 6 with an odd repetition. -/
theorem invalid_config_no_failfast_witness :
    NUM_TYPE_D ≤ 6 ∧ (1 : Nat) % 2 = 1 ∧ (Trial.initD 6 1).num_stimuli = 0 :=
  ⟨by decide, by decide,
    (invalid_config_no_failfast zeroG 0 TRIAL_colorS1 TRIAL_colorS2 6 1
      (by decide) (by decide)).1⟩

/-- Counterexample for C4: constructing a trial with the unlisted condition
index 6 proceeds normally (num_stimuli stays 0, the whole generator
iteration completes with empty color lists on an odd repetition), and the
12-stimulus trial silently truncates the 16-entry pool to 12 colors —
neither situation raises any error. -/
theorem invalid_condition_proceeds :
    (Trial.initD 6 1).num_stimuli = 0 ∧
    (Trial.initC 3 1).num_stimuli = 0 ∧
    (buildTrialD zeroG 0 TRIAL_colorS1 TRIAL_colorS2 6 1).1.1.num_stimuli = 0 ∧
    (buildTrialD zeroG 0 TRIAL_colorS1 TRIAL_colorS2 6 1).1.1.stim_colors = [] ∧
    (buildTrialD zeroG 0 TRIAL_colorS1 TRIAL_colorS2 6 1).1.1.probe_colors = [] ∧
    (buildTrialD zeroG 0 TRIAL_colorS1 TRIAL_colorS2 5 1).1.1.stim_colors.length = 12 := by
  decide

/-- C5 (amended): on a change trial the replaced position index is drawn
uniformly from [0, stimulus_count) and probe_colors at that index receives
the pool entry at the source index; but in the discrete variant the source
index is drawn uniformly from [stimulus_count, 14) — randint
(num_stimuli, 13) — NOT from [stimulus_count, 16): pool entries 14 and 15
of the 16-entry pool can never be chosen (change_source_never_top_indices).
In the continuous variant the source range [stimulus_count, 8) matches the
palette size 8 as claimed.  Uniformity is rendered as support coverage:
every value of the stated range is reachable for some entropy stream. -/
theorem change_draw_ranges (g : Nat → Nat) (k kc : Nat) (p1 p2 p : List Color)
    (trD trC rep : Nat) (htrD : trD < NUM_TYPE_D) (htrC : trC < NUM_TYPE_C)
    (he : rep % 2 = 0) :
    (∃ (pool : List Color) (i j : Nat), pool.length = p1.length + p2.length ∧
      i < numStimuliD trD ∧ numStimuliD trD ≤ j ∧ j < 14 ∧
      (buildTrialD g k p1 p2 trD rep).1.1.stim_colors =
        pool.take (numStimuliD trD) ∧
      (buildTrialD g k p1 p2 trD rep).1.1.probe_colors =
        (pool.set i (pool.getD j default)).take (numStimuliD trD)) ∧
    (∀ g2 : Nat → Nat, ∀ k2, randint g2 k2 (numStimuliD trD) 13 < 14) ∧
    (∀ v, v < numStimuliD trD →
      ∃ g2 : Nat → Nat, ∀ k2, randint g2 k2 0 (numStimuliD trD - 1) = v) ∧
    (∀ v, numStimuliD trD ≤ v → v ≤ 13 →
      ∃ g2 : Nat → Nat, ∀ k2, randint g2 k2 (numStimuliD trD) 13 = v) ∧
    (∃ (pool : List Color) (i j : Nat), pool.length = p.length ∧
      i < numStimuliC trC ∧ numStimuliC trC ≤ j ∧ j < 8 ∧
      (buildTrialC g kc p trC rep).1.1.stim_colors =
        pool.take (numStimuliC trC) ∧
      (buildTrialC g kc p trC rep).1.1.probe_colors =
        (pool.set i (pool.getD j default)).take (numStimuliC trC)) ∧
    (∀ v, numStimuliC trC ≤ v → v ≤ 7 →
      ∃ g2 : Nat → Nat, ∀ k2, randint g2 k2 (numStimuliC trC) 7 = v) := by
  have hnD : 0 < numStimuliD trD := numStimuliD_pos htrD
  have hnD12 : numStimuliD trD ≤ 12 := numStimuliD_le trD
  have hnC : 0 < numStimuliC trC := numStimuliC_pos htrC
  have hnC6 : numStimuliC trC ≤ 6 := numStimuliC_le trC
  refine ⟨?_, ?_, ?_, ?_, ?_, ?_⟩
  · refine ⟨(shuffle g (k + 12) p1).1 ++ (shuffle g (k + 12 + p1.length) p2).1,
      randint g (k + 12 + p1.length + p2.length) 0 (numStimuliD trD - 1),
      randint g (k + 12 + p1.length + p2.length + 1) (numStimuliD trD) 13,
      ?_, ?_, ?_, ?_, ?_, ?_⟩
    · rw [List.length_append, shuffle_fst_length, shuffle_fst_length]
    · rw [randint_mod _ _ _ hnD]
      exact Nat.mod_lt _ hnD
    · exact randint_lower _ _ _ _
    · have := randint_upper g (k + 12 + p1.length + p2.length + 1)
        (numStimuliD trD) 13 (by omega)
      omega
    · exact buildTrialD_stim_colors g k p1 p2 trD rep
    · exact buildTrialD_probe_even g k p1 p2 trD rep he
  · intro g2 k2
    have := randint_upper g2 k2 (numStimuliD trD) 13 (by omega)
    omega
  · intro v hv
    exact ⟨fun _ => v - 0, fun k2 => randint_reachable 0 _ v k2 (by omega) (by omega)⟩
  · intro v hv1 hv2
    exact ⟨fun _ => v - numStimuliD trD,
      fun k2 => randint_reachable _ 13 v k2 hv1 hv2⟩
  · refine ⟨(shuffle g (kc + 12) p).1,
      randint g (kc + 12 + p.length) 0 (numStimuliC trC - 1),
      randint g (kc + 12 + p.length + 1) (numStimuliC trC) 7,
      ?_, ?_, ?_, ?_, ?_, ?_⟩
    · exact shuffle_fst_length g _ p
    · rw [randint_mod _ _ _ hnC]
      exact Nat.mod_lt _ hnC
    · exact randint_lower _ _ _ _
    · have := randint_upper g (kc + 12 + p.length + 1) (numStimuliC trC) 7 (by omega)
      omega
    · exact buildTrialC_stim_colors g kc p trC rep
    · exact buildTrialC_probe_even g kc p trC rep he
  · intro v hv1 hv2
    exact ⟨fun _ => v - numStimuliC trC,
      fun k2 => randint_reachable _ 7 v k2 hv1 hv2⟩

/-- Witness for C5: the 12-stimulus discrete condition and the 6-stimulus
continuous condition on repetition 0. -/
theorem change_draw_ranges_witness :
    (5 : Nat) < NUM_TYPE_D ∧ (2 : Nat) < NUM_TYPE_C ∧ (0 : Nat) % 2 = 0 ∧
    (∀ g2 : Nat → Nat, ∀ k2, randint g2 k2 (numStimuliD 5) 13 < 14) :=
  ⟨by decide, by decide, by decide,
    (change_draw_ranges zeroG 0 0 TRIAL_colorS1 TRIAL_colorS2 TRIAL_colorS_Cont
      5 2 0 (by decide) (by decide) (by decide)).2.1⟩

/-- Counterexample for C5: at stimulus count 12 the discrete source draw is
randint (12, 13), whose outcome never reaches 14 — so pool indices 14 and
15 are unreachable and the draw is not uniform over [12, 16) as the claim
states for the 16-entry pool. -/
theorem change_source_never_top_indices :
    ¬ ∃ (g : Nat → Nat) (k : Nat), 14 ≤ randint g k 12 13 := by
  rintro ⟨g, k, hge⟩
  have hle := randint_upper g k 12 13 (by omega)
  omega

/-- C6: every generated trial (both variants) has as many positions as
sample and probe colors, namely num_stimuli of each; its positions are
pairwise distinct and each lies on the ring of 12 equally spaced slots at
angle 2 pi j / 12 and radius STIM_POS_RADIUS = 4. -/
theorem positions_well_formed {t u : Trial} {g g2 : Nat → Nat} {nD nC : Nat}
    (hD : t ∈ setTrialsD g nD) (hC : u ∈ setTrialsC g2 nC) :
    (t.positions.length = t.num_stimuli ∧
      t.stim_colors.length = t.num_stimuli ∧
      t.probe_colors.length = t.num_stimuli ∧ t.positions.Nodup ∧
      ∀ p ∈ t.positions, ∃ j : Nat, j < 12 ∧
        p = (Real.cos (2 * Real.pi * j / 12) * 4,
             Real.sin (2 * Real.pi * j / 12) * 4)) ∧
    (u.positions.length = u.num_stimuli ∧
      u.stim_colors.length = u.num_stimuli ∧
      u.probe_colors.length = u.num_stimuli ∧ u.positions.Nodup ∧
      ∀ p ∈ u.positions, ∃ j : Nat, j < 12 ∧
        p = (Real.cos (2 * Real.pi * j / 12) * 4,
             Real.sin (2 * Real.pi * j / 12) * 4)) := by
  obtain ⟨-, -, hsl, hst, hpr, hnd, hlt, -, -, -, -⟩ := trialD_invariants hD
  obtain ⟨hl, hn2, hor⟩ := positions_from_slots hsl hnd hlt
  obtain ⟨-, -, -, hsl2, hst2, hpr2, hnd2, hlt2, -, -, -, -⟩ := trialC_invariants hC
  obtain ⟨hl2, hn22, hor2⟩ := positions_from_slots hsl2 hnd2 hlt2
  exact ⟨⟨hl, hst, hpr, hn2, hor⟩, ⟨hl2, hst2, hpr2, hn22, hor2⟩⟩

/-- Witness for C6: concrete generated trials of both variants. -/
theorem positions_well_formed_witness :
    tD0 ∈ setTrialsD zeroG 1 ∧ tC0 ∈ setTrialsC zeroG 1 ∧
    tD0.positions.length = tD0.num_stimuli :=
  ⟨by decide, by decide,
    (positions_well_formed (show tD0 ∈ setTrialsD zeroG 1 by decide)
      (show tC0 ∈ setTrialsC zeroG 1 by decide)).1.1⟩

/-- C7: trial generation is deterministic in the seed.  The seeded random
source is modelled as a stream determined by the seed (prng); with equal
seeds and equal parameters both variants produce identical trial sequences,
identical order included, and hence every field of every trial agrees. -/
theorem generation_deterministic_in_seed (prng : Nat → Nat → Nat)
    (s1 s2 numReps : Nat) (h : s1 = s2) :
    setTrialsSeededD prng s1 numReps = setTrialsSeededD prng s2 numReps ∧
    setTrialsSeededC prng s1 numReps = setTrialsSeededC prng s2 numReps ∧
    ∀ i : Nat,
      ((setTrialsSeededD prng s1 numReps).getD i default).num_stimuli =
        ((setTrialsSeededD prng s2 numReps).getD i default).num_stimuli ∧
      ((setTrialsSeededD prng s1 numReps).getD i default).positions =
        ((setTrialsSeededD prng s2 numReps).getD i default).positions ∧
      ((setTrialsSeededD prng s1 numReps).getD i default).stim_colors =
        ((setTrialsSeededD prng s2 numReps).getD i default).stim_colors ∧
      ((setTrialsSeededD prng s1 numReps).getD i default).probe_colors =
        ((setTrialsSeededD prng s2 numReps).getD i default).probe_colors ∧
      ((setTrialsSeededD prng s1 numReps).getD i default).change =
        ((setTrialsSeededD prng s2 numReps).getD i default).change := by
  subst h
  exact ⟨rfl, rfl, fun i => ⟨rfl, rfl, rfl, rfl, rfl⟩⟩

/-- Witness for C7: the test subject seed 999 replayed. -/
theorem generation_deterministic_in_seed_witness :
    (999 : Nat) = 999 ∧
    setTrialsSeededD (fun _ _ => 0) 999 (NUM_REPS_of 999) =
      setTrialsSeededD (fun _ _ => 0) 999 (NUM_REPS_of 999) :=
  ⟨rfl, (generation_deterministic_in_seed (fun _ _ => 0) 999 999
    (NUM_REPS_of 999) rfl).1⟩

/-- C9: before the final shuffle the generator emits exactly one trial per
(condition, repetition) pair, in the loop order of set_trials, hence
numReps * NUM_TYPE trials; set_trials then returns a permutation of that
list produced by a single shuffle.  The test subject number 999 reduces
NUM_REPS to 2, so the discrete variant builds exactly 2 * 6 = 12 trials
before the shuffle. -/
theorem generator_count_and_shuffle (g : Nat → Nat) (numReps : Nat) :
    ((setTrialsPreD g numReps).1.map fun t => (t.trial_num, t.rep_num)) =
      trialPairs numReps NUM_TYPE_D ∧
    (setTrialsPreD g numReps).1.length = numReps * NUM_TYPE_D ∧
    List.Perm (setTrialsD g numReps) (setTrialsPreD g numReps).1 ∧
    NUM_REPS_of 999 = 2 ∧
    (setTrialsPreD g (NUM_REPS_of 999)).1.length = 12 ∧
    ((setTrialsPreC g numReps).1.map fun t => (t.trial_num, t.rep_num)) =
      trialPairs numReps NUM_TYPE_C ∧
    (setTrialsPreC g numReps).1.length = numReps * NUM_TYPE_C ∧
    List.Perm (setTrialsC g numReps) (setTrialsPreC g numReps).1 := by
  refine ⟨genTrialsD_map_ids g _ _ _ _, ?_, shuffle_fst_perm g _ _, rfl, ?_,
    genTrialsC_map_ids g _ _ _, ?_, shuffle_fst_perm g _ _⟩
  · show (genTrialsD g (trialPairs numReps NUM_TYPE_D)
      TRIAL_colorS1 TRIAL_colorS2 0).1.length = numReps * NUM_TYPE_D
    rw [genTrialsD_length, trialPairs_length]
  · show (genTrialsD g (trialPairs (NUM_REPS_of 999) NUM_TYPE_D)
      TRIAL_colorS1 TRIAL_colorS2 0).1.length = 12
    rw [genTrialsD_length, trialPairs_length]
    decide
  · show (genTrialsC g (trialPairs numReps NUM_TYPE_C)
      TRIAL_colorS_Cont 0).1.length = numReps * NUM_TYPE_C
    rw [genTrialsC_length, trialPairs_length]

/-- C8: the reported color of the continuous scorer is the RGB of the wheel
point nearest to the pointer (np.argmin over the Euclidean distances, in
range and minimal), and the error is the Euclidean RGB distance to the
probe color; in particular a pointer placed exactly on wheel point 90 with
the probe color equal to the wheel RGB at 90 yields error 0. -/
theorem scorer_nearest_point_error (p : ℝ × ℝ) (j : Nat) (hj : j < 360) :
    reportedLoc p < 360 ∧
    eucDist (wheelPos (reportedLoc p)) p ≤ eucDist (wheelPos j) p ∧
    reportedLoc (wheelPos 90) = 90 ∧
    judgementError (wheelRGB (reportedLoc (wheelPos 90))) (wheelRGB 90) = 0 := by
  refine ⟨(reportedLoc_min p).1, (reportedLoc_min p).2 j hj, reportedLoc_at_90, ?_⟩
  rw [reportedLoc_at_90]
  exact judgementError_self _

/-- Witness for C8: pointer at the screen center against wheel point 0. -/
theorem scorer_nearest_point_error_witness :
    (0 : Nat) < 360 ∧
    judgementError (wheelRGB (reportedLoc (wheelPos 90))) (wheelRGB 90) = 0 :=
  ⟨by decide,
    (scorer_nearest_point_error ((0 : ℝ), (0 : ℝ)) 0 (by decide)).2.2.2⟩

/-- C10: at probe time the continuous variant draws an index uniformly from
[0, num_stimuli) and scores against the sample color at that index, so the
scored color is always an element of the trial's sample array; trials that
agree on their sample colors produce the same probe color and the same
error whatever their probe_colors lists or change flags are — those fields
never influence the displayed probe or the computed error. -/
theorem runtime_probe_from_sample {u u2 : Trial} {g : Nat → Nat}
    {numReps : Nat} (h : u ∈ setTrialsC g numReps) (k v : Nat)
    (hv : v < u.num_stimuli) (hsame : u2.stim_colors = u.stim_colors) :
    0 < u.num_stimuli ∧
    probeIdx g k u.num_stimuli < u.num_stimuli ∧
    probeColorRT u (probeIdx g k u.num_stimuli) ∈ u.stim_colors ∧
    (∀ k2, probeIdx (fun _ => v) k2 u.num_stimuli = v) ∧
    probeColorRT u2 (probeIdx g k u.num_stimuli) =
      probeColorRT u (probeIdx g k u.num_stimuli) ∧
    ∀ c : Color,
      judgementError c (probeColorRT u2 (probeIdx g k u.num_stimuli)) =
        judgementError c (probeColorRT u (probeIdx g k u.num_stimuli)) := by
  obtain ⟨-, -, hpos, -, hstl, -, -, -, -, -, -, -⟩ := trialC_invariants h
  have hidx : probeIdx g k u.num_stimuli < u.num_stimuli := Nat.mod_lt _ hpos
  refine ⟨hpos, hidx, ?_, ?_, ?_, ?_⟩
  · exact getD_mem _ _ _ (by rw [hstl]; exact hidx)
  · intro k2
    exact Nat.mod_eq_of_lt hv
  · unfold probeColorRT
    rw [hsame]
  · intro c
    unfold probeColorRT
    rw [hsame]

/-- Witness for C10: a concrete generated continuous trial against a
variant trial differing only in probe colors and change flag. -/
theorem runtime_probe_from_sample_witness :
    tC0 ∈ setTrialsC zeroG 1 ∧ (1 : Nat) < tC0.num_stimuli ∧
    tC0var.stim_colors = tC0.stim_colors ∧
    probeColorRT tC0var (probeIdx zeroG 0 tC0.num_stimuli) =
      probeColorRT tC0 (probeIdx zeroG 0 tC0.num_stimuli) :=
  ⟨by decide, by decide, by decide,
    (runtime_probe_from_sample (show tC0 ∈ setTrialsC zeroG 1 by decide) 0 1
      (by decide) (by decide)).2.2.2.2.1⟩

end ChangeDetection
